import Mathlib

/-!
Verification of the Rule Orchestration Engine of `maps_workflow/main.py`.

The engine's control flow (`execute_rules`, `load_all_rules`,
`generate_rules_file`) is embedded shallowly.  External collaborators — the
map artifact, YAML parsing, importable rule modules and rule bodies — are
abstracted into an `Env` record of pure functions, exactly the boundary the
code itself draws (`importlib.import_module`, `getattr`, `.evaluate()`,
`.explain()`).  Python run-time faults that the code can actually hit
(`KeyError` on `rule['name']`, `TypeError` on calling the `None` returned by
`getattr`, `UnboundLocalError` on `rule_time_elapsed` inside the `except`
handler) are modelled as explicit `crash` outcomes, since none of them is
caught by the code.
-/

namespace MapsWorkflow

/-- Severity policy of a rule: the `type` field of a descriptor. -/
inductive Policy where
  | require
  | fail
  | skip
deriving DecidableEq, Repr

/-- A raw descriptor mapping as parsed from YAML, before pydantic validation.
Each field is `none` when the corresponding key is absent from the mapping.
`P` is the opaque type of the `params` mapping. -/
structure RawRule (P : Type) where
  name : Option String
  module : Option String
  class_name : Option String
  type : Option String
  description : Option String
  depends_on : Option (List String)
  params : Option P
deriving DecidableEq, Repr

/-- A validated rule descriptor (the fields of `BaseRuleConfig`). -/
structure BaseRuleConfig (P : Type) where
  name : String
  module : String
  class_name : String
  type : Policy
  description : String
  depends_on : List String
  params : P
deriving DecidableEq, Repr

/-- Recognizing the `type` field's policy value. -/
def parsePolicy (s : String) : Option Policy :=
  if s = "require" then some Policy.require
  else if s = "fail" then some Policy.fail
  else if s = "skip" then some Policy.skip
  else none

/-- Modelled from the spec: the pydantic model `BaseRuleConfig` lives in
`maps_workflow/baserule.py`, which is not under `src/`; §4.1 of the spec fixes
its contract.  Required fields: `name`, `module`, `class_name`, `type`;
`type` must be one of the three recognized policy values; `depends_on`
defaults to the empty sequence, `params` to the empty mapping (here the
`Inhabited` default of `P`), `description` to the empty string.  Returns
`none` exactly when pydantic raises `ValidationError`. -/
def baseRuleConfig {P : Type} [Inhabited P] (raw : RawRule P) :
    Option (BaseRuleConfig P) :=
  match raw.name, raw.module, raw.class_name, raw.type with
  | some n, some m, some c, some t =>
    match parsePolicy t with
    | some pol =>
      some ⟨n, m, c, pol, raw.description.getD "", raw.depends_on.getD [],
            raw.params.getD default⟩
    | none => none
  | _, _, _, _ => none

/-- Outcome of one call to a rule instance's `evaluate()`: either a normal
return carrying the (possibly empty) violation list, or a raised exception. -/
inductive EvalOutcome where
  | ok (violations : List String)
  | raises
deriving DecidableEq, Repr

/-- The environment abstracting the engine's external collaborators, fixed
for one run (the artifact path and parsed map are folded into `evalRule`).
`moduleResolves m` models `importlib.import_module` succeeding on module `m`;
`classFound m c` models `getattr(module, c, None)` returning a class;
`evalRule m c p` models constructing the rule with params `p` and calling
`evaluate()`; `explainRule m c p` models calling `explain()`. -/
structure Env (P : Type) where
  moduleResolves : String → Bool
  classFound : String → String → Bool
  evalRule : String → String → P → EvalOutcome
  explainRule : String → String → P → String

/-- The run status table `rule_status`: a Python dict modelled as an
association list where a new binding is consed on the front, so lookup
returns the most recently written value and old entries are never removed. -/
abbrev StatusTable : Type := List (String × Bool)

/-- Dict update `rule_status[name] = b`, overwriting for lookups. -/
def stInsert (t : StatusTable) (n : String) (b : Bool) : StatusTable :=
  (n, b) :: t

/-- Lookup in the status table (`rule_status[name]`, `name in rule_status`). -/
def stLookup : StatusTable → String → Option Bool
  | [], _ => none
  | (m, b) :: t, n => if m = n then some b else stLookup t n

/-- Translation of `can_run_rule`: a dependency name absent from the table blocks the rule;
otherwise its recorded boolean decides. -/
def canRunRule (t : StatusTable) (n : String) : Bool :=
  match stLookup t n with
  | none => false
  | some b => b

/-- The uncaught Python exceptions `execute_rules` can raise. -/
inductive PyErr where
  | keyError
  | typeError
  | unboundLocalError
deriving DecidableEq, Repr

/-- Mutable per-run engine state: the status table, plus whether the local
variable `rule_time_elapsed` has been assigned yet in this call (it is only
assigned after an evaluation returns normally). -/
structure EngState where
  tbl : StatusTable
  elapsedDefined : Bool
deriving DecidableEq, Repr

/-- State at the top of `execute_rules`: empty dict, no locals assigned. -/
def initState : EngState := ⟨[], false⟩

/-- Result of processing one descriptor of the loop body. -/
inductive StepResult where
  | next (st : EngState)
  | abort (tbl : StatusTable)
  | crash (e : PyErr) (tbl : StatusTable)
deriving DecidableEq, Repr

/-- One iteration of the `for rule in config['rules']` loop of
`execute_rules` (main.py lines 48–105), translated branch by branch:
validation failure writes `rule_status[rule['name']] = False` — a `KeyError`
when the raw mapping has no `name` key; the dependency gate, module
resolution, the `getattr(...)(...)` call — a `TypeError` when the class is
absent, since `None` is then called; evaluation with its violation count and
policy dispatch; and the `except` handler, whose log f-strings read
`rule_time_elapsed` — an `UnboundLocalError` when no earlier evaluation in
this call completed normally. -/
def processRule {P : Type} [Inhabited P] (env : Env P) (st : EngState)
    (raw : RawRule P) : StepResult :=
  match baseRuleConfig raw with
  | none =>
    match raw.name with
    | none => StepResult.crash PyErr.keyError st.tbl
    | some n => StepResult.next ⟨stInsert st.tbl n false, st.elapsedDefined⟩
  | some rule =>
    if rule.depends_on.all (canRunRule st.tbl) then
      if env.moduleResolves rule.module then
        if env.classFound rule.module rule.class_name then
          match env.evalRule rule.module rule.class_name rule.params with
          | EvalOutcome.ok violations =>
            if violations.length > 0 then
              match rule.type with
              | Policy.require =>
                StepResult.abort (stInsert st.tbl rule.name false)
              | Policy.fail =>
                StepResult.next ⟨stInsert st.tbl rule.name false, true⟩
              | Policy.skip =>
                StepResult.next ⟨stInsert st.tbl rule.name false, true⟩
            else
              StepResult.next ⟨stInsert st.tbl rule.name true, true⟩
          | EvalOutcome.raises =>
            if st.elapsedDefined then
              match rule.type with
              | Policy.require =>
                StepResult.abort (stInsert st.tbl rule.name false)
              | Policy.fail =>
                StepResult.next ⟨stInsert st.tbl rule.name false, true⟩
              | Policy.skip =>
                StepResult.next ⟨stInsert st.tbl rule.name false, true⟩
            else
              StepResult.crash PyErr.unboundLocalError
                (stInsert st.tbl rule.name false)
        else
          StepResult.crash PyErr.typeError st.tbl
      else
        StepResult.next ⟨stInsert st.tbl rule.name false, st.elapsedDefined⟩
    else
      StepResult.next ⟨stInsert st.tbl rule.name false, st.elapsedDefined⟩

/-- Overall outcome of `execute_rules`: a returned boolean together with the
final status table, or an uncaught exception (`crashed`). -/
inductive RunOutcome where
  | completed (result : Bool) (tbl : StatusTable)
  | crashed (e : PyErr) (tbl : StatusTable)
deriving DecidableEq, Repr

/-- The loop of `execute_rules`, from a given state. -/
def execRules {P : Type} [Inhabited P] (env : Env P) :
    EngState → List (RawRule P) → RunOutcome
  | st, [] => RunOutcome.completed true st.tbl
  | st, r :: rs =>
    match processRule env st r with
    | StepResult.next st' => execRules env st' rs
    | StepResult.abort t => RunOutcome.completed false t
    | StepResult.crash e t => RunOutcome.crashed e t

/-- Translation of `execute_rules(raw_file, map_data, config)` (main.py lines 39–108). -/
def execute_rules {P : Type} [Inhabited P] (env : Env P)
    (rules : List (RawRule P)) : RunOutcome :=
  execRules env initState rules

/-- Runs a sequence of descriptors step by step, returning the resulting
state when every descriptor was processed and the loop moved on each time
(no abort, no crash). -/
def runSeq {P : Type} [Inhabited P] (env : Env P) :
    EngState → List (RawRule P) → Option EngState
  | st, [] => some st
  | st, r :: rs =>
    match processRule env st r with
    | StepResult.next st' => runSeq env st' rs
    | StepResult.abort _ => none
    | StepResult.crash _ _ => none

/-! ### The rule loader (`load_all_rules`, main.py lines 27–37)

A directory is modelled as a list of `(filename, parsed rules-list)` pairs:
`os.listdir` yields the filenames, and a successful
`load_rules_from_file(path)['rules']` yields the file's rules list (YAML
parsing is out of scope; a parse failure is a fatal `LoadError` before the
loop is relevant, not covered by the claims).  `sorted()` on Python strings
is lexicographic code-point order, modelled by `lexLe` below. -/

/-- Lexicographic code-point comparison of filenames (Python `sorted`). -/
def lexLe : List Char → List Char → Bool
  | [], _ => true
  | _ :: _, [] => false
  | a :: as, b :: bs =>
    if a.toNat < b.toNat then true
    else if b.toNat < a.toNat then false
    else lexLe as bs

/-- Ordering on directory entries by filename. -/
def fileLe {R : Type} (a b : String × List R) : Prop :=
  lexLe a.1.data b.1.data = true

instance {R : Type} : DecidableRel (@fileLe R) := by
  intro a b
  unfold fileLe
  infer_instance

/-- Translation of `sorted(os.listdir(directory))`, carrying each file's contents along. -/
def sortFiles {R : Type} (listing : List (String × List R)) :
    List (String × List R) :=
  List.insertionSort fileLe listing

/-- Translation of `any(filename.startswith(skip) for skip in exclude)`. -/
def excludedFile (exclude : List String) (fname : String) : Bool :=
  exclude.any (fun s => fname.startsWith s)

/-- The loader's `for filename in ...` loop with its accumulator
`all_rules['rules']` (`continue` on an excluded name, `extend` on a `.yaml`
name, fall through otherwise). -/
def loadLoop {R : Type} (exclude : List String) :
    List (String × List R) → List R → List R
  | [], acc => acc
  | (fname, content) :: rest, acc =>
    if excludedFile exclude fname then loadLoop exclude rest acc
    else if fname.endsWith ".yaml" then loadLoop exclude rest (acc ++ content)
    else loadLoop exclude rest acc

/-- Translation of `load_all_rules(directory, exclude)` (main.py lines 27–37), returning
the concatenated `rules` list. -/
def load_all_rules {R : Type} (listing : List (String × List R))
    (exclude : List String) : List R :=
  loadLoop exclude (sortFiles listing) []

/-- Follows the spec's words (§4.2): the concatenation, in lexicographic
filename order, of every declaration file's rule list, omitting files whose
name starts with an excluded prefix and ignoring files not ending in the
expected extension. -/
def loadAllRulesSpec {R : Type} (listing : List (String × List R))
    (exclude : List String) : List R :=
  (((sortFiles listing).filter
      (fun p => !(excludedFile exclude p.1) && p.1.endsWith ".yaml")).map
    Prod.snd).flatten

/-! ### Documentation generation (`generate_rules_file`, main.py 110–129) -/

/-- One collected record of documentation-generation mode. -/
structure DocEntry where
  name : String
  desc : String
  explain : String
  required : Bool
deriving DecidableEq, Repr

/-- Outcome of `generate_rules_file`: the collected list, or an uncaught
exception (the `TypeError` from calling the `None` that `getattr` returns
when the named class is absent, main.py line 124). -/
inductive GenOutcome where
  | done (entries : List DocEntry)
  | crashed (e : PyErr)
deriving DecidableEq, Repr

/-- The loop of `generate_rules_file` (main.py lines 113–128): a descriptor
failing validation is skipped, an unresolvable module is skipped, an absent
class crashes the call, and otherwise a record is appended.  `explain()` of
a resolved rule is an opaque external capability, modelled total. -/
def genLoop {P : Type} [Inhabited P] (env : Env P) :
    List (RawRule P) → List DocEntry → GenOutcome
  | [], acc => GenOutcome.done acc
  | r :: rs, acc =>
    match baseRuleConfig r with
    | none => genLoop env rs acc
    | some rule =>
      if env.moduleResolves rule.module then
        if env.classFound rule.module rule.class_name then
          genLoop env rs (acc ++
            [⟨rule.name, rule.description,
              env.explainRule rule.module rule.class_name rule.params,
              decide (rule.type = Policy.require)⟩])
        else
          GenOutcome.crashed PyErr.typeError
      else
        genLoop env rs acc

/-- Translation of `generate_rules_file()` (main.py lines 110–129), with the already-loaded
descriptor list as input. -/
def generate_rules_file {P : Type} [Inhabited P] (env : Env P)
    (rules : List (RawRule P)) : GenOutcome :=
  genLoop env rules []

/-! ### Concrete fixtures used to exercise the definitions -/

/-- A raw descriptor with the given name, policy string and dependency list,
backed by module `mod` / class `Cls`, with `P = Unit`. -/
def mkRaw (n ty : String) (deps : Option (List String)) : RawRule Unit :=
  ⟨some n, some "mod", some "Cls", some ty, none, deps, none⟩

/-- A raw descriptor whose mapping omits the `name` key. -/
def cRawNoName : RawRule Unit :=
  ⟨none, some "mod", some "Cls", some "fail", none, none, none⟩

/-- Environment where every rule resolves and evaluates to one violation. -/
def cEnvViol : Env Unit :=
  ⟨fun _ => true, fun _ _ => true, fun _ _ _ => EvalOutcome.ok ["v"],
   fun _ _ _ => ""⟩

/-- Environment where every rule resolves and evaluates to no violations. -/
def cEnvPass : Env Unit :=
  ⟨fun _ => true, fun _ _ => true, fun _ _ _ => EvalOutcome.ok [],
   fun _ _ _ => ""⟩

/-- Environment where every rule resolves and its evaluation raises. -/
def cEnvRaises : Env Unit :=
  ⟨fun _ => true, fun _ _ => true, fun _ _ _ => EvalOutcome.raises,
   fun _ _ _ => ""⟩

/-- Environment where modules resolve but no class is found in them. -/
def cEnvNoClass : Env Unit :=
  ⟨fun _ => true, fun _ _ => false, fun _ _ _ => EvalOutcome.ok [],
   fun _ _ _ => ""⟩

/-- Environment where no module resolves. -/
def cEnvNoModule : Env Unit :=
  ⟨fun _ => false, fun _ _ => true, fun _ _ _ => EvalOutcome.ok [],
   fun _ _ _ => ""⟩

/-! ### Helper lemmas -/

/-- Processing a list that runs through step by step, followed by a rest,
equals processing the rest from the reached state. -/
theorem execRules_append {P : Type} [Inhabited P] (env : Env P)
    {st st' : EngState} {rs1 : List (RawRule P)}
    (h : runSeq env st rs1 = some st') (rest : List (RawRule P)) :
    execRules env st (rs1 ++ rest) = execRules env st' rest := by
  induction rs1 generalizing st with
  | nil =>
    simp only [runSeq, Option.some.injEq] at h
    subst h
    rfl
  | cons r rs ih =>
    simp only [runSeq] at h
    cases hp : processRule env st r with
    | next st2 =>
      rw [hp] at h
      simp only [List.cons_append, execRules, hp]
      exact ih h
    | abort t =>
      rw [hp] at h
      simp at h
    | crash e t =>
      rw [hp] at h
      simp at h

/-- A failing member makes `List.all` false. -/
theorem all_eq_false_of_mem {l : List String} {p : String → Bool} {d : String}
    (hd : d ∈ l) (hp : p d = false) : l.all p = false := by
  cases hall : l.all p with
  | false => rfl
  | true =>
    have := List.all_eq_true.mp hall d hd
    rw [hp] at this
    cases this

/-- A dependency that is absent or recorded false fails `can_run_rule`. -/
theorem canRunRule_eq_false {t : StatusTable} {d : String}
    (hd : stLookup t d ≠ some true) : canRunRule t d = false := by
  unfold canRunRule
  cases h : stLookup t d with
  | none => rfl
  | some b =>
    cases b with
    | false => rfl
    | true => exact absurd h hd

/-! ### Claims -/

/-- Claim C1: for every configured rule sequence, if a descriptor with policy
`require` validates, passes its dependency gate, resolves, and its evaluation
returns one or more violations, then `execute_rules` records that rule's
status as false, returns overall failure, and no descriptor after it in the
sequence is processed (the returned status table is exactly the table built
from the prefix plus this rule's entry, for every suffix `rs2`). -/
theorem execute_rules_require_violation_aborts {P : Type} [Inhabited P]
    (env : Env P) (rs1 rs2 : List (RawRule P)) (raw : RawRule P)
    (cfg : BaseRuleConfig P) (st : EngState) (vs : List String)
    (hseq : runSeq env initState rs1 = some st)
    (hval : baseRuleConfig raw = some cfg)
    (hty : cfg.type = Policy.require)
    (hgate : cfg.depends_on.all (canRunRule st.tbl) = true)
    (hmod : env.moduleResolves cfg.module = true)
    (hcls : env.classFound cfg.module cfg.class_name = true)
    (heval : env.evalRule cfg.module cfg.class_name cfg.params =
      EvalOutcome.ok vs)
    (hvs : vs.length > 0) :
    execute_rules env (rs1 ++ raw :: rs2) =
      RunOutcome.completed false (stInsert st.tbl cfg.name false) := by
  unfold execute_rules
  rw [execRules_append env hseq]
  have hstep : processRule env st raw =
      StepResult.abort (stInsert st.tbl cfg.name false) := by
    unfold processRule
    rw [hval]
    simp [hgate, hmod, hcls, heval, hvs, hty]
  simp only [execRules, hstep]

/-- Witness for C1 at a concrete run: one passing rule, then a violating
`require` rule, then a trailing rule that is never processed. -/
theorem execute_rules_require_violation_aborts_witness :
    execute_rules cEnvViol
        ([mkRaw "z" "skip" none] ++ mkRaw "a" "require" none ::
          [mkRaw "b" "fail" none]) =
      RunOutcome.completed false
        (stInsert (⟨[("z", false)], true⟩ : EngState).tbl "a" false) :=
  execute_rules_require_violation_aborts cEnvViol
    [mkRaw "z" "skip" none] [mkRaw "b" "fail" none]
    (mkRaw "a" "require" none)
    ⟨"a", "mod", "Cls", Policy.require, "", [], ()⟩
    ⟨[("z", false)], true⟩ ["v"]
    (by decide) (by decide) rfl (by decide) rfl rfl rfl (by decide)

/-- Claim C2: a descriptor whose `depends_on` contains a name that is absent
from the status table or recorded false is never evaluated (the step result
is the same for every evaluation function), its status is recorded as false,
and processing continues with the next descriptor. -/
theorem dependency_gate_blocks_rule {P : Type} [Inhabited P]
    (env : Env P) (st : EngState) (raw : RawRule P) (cfg : BaseRuleConfig P)
    (d : String) (f : String → String → P → EvalOutcome)
    (rest : List (RawRule P))
    (hval : baseRuleConfig raw = some cfg)
    (hdep : d ∈ cfg.depends_on)
    (hd : stLookup st.tbl d ≠ some true) :
    processRule env st raw =
      StepResult.next ⟨stInsert st.tbl cfg.name false, st.elapsedDefined⟩
    ∧ processRule ⟨env.moduleResolves, env.classFound, f, env.explainRule⟩
        st raw =
      StepResult.next ⟨stInsert st.tbl cfg.name false, st.elapsedDefined⟩
    ∧ execRules env st (raw :: rest) =
        execRules env ⟨stInsert st.tbl cfg.name false, st.elapsedDefined⟩
          rest := by
  have hgate : cfg.depends_on.all (canRunRule st.tbl) = false :=
    all_eq_false_of_mem hdep (canRunRule_eq_false hd)
  have hstep : ∀ env' : Env P, processRule env' st raw =
      StepResult.next ⟨stInsert st.tbl cfg.name false, st.elapsedDefined⟩ := by
    intro env'
    unfold processRule
    rw [hval]
    simp [hgate]
  refine ⟨hstep env, hstep _, ?_⟩
  simp only [execRules, hstep env]

/-- Witness for C2: a rule depending on the absent name `z` is blocked, for
an environment whose evaluation would have passed it. -/
theorem dependency_gate_blocks_rule_witness :
    processRule cEnvPass initState (mkRaw "b" "fail" (some ["z"])) =
      StepResult.next ⟨stInsert initState.tbl "b" false,
        initState.elapsedDefined⟩
    ∧ processRule ⟨cEnvPass.moduleResolves, cEnvPass.classFound,
        fun _ _ _ => EvalOutcome.raises, cEnvPass.explainRule⟩ initState
        (mkRaw "b" "fail" (some ["z"])) =
      StepResult.next ⟨stInsert initState.tbl "b" false,
        initState.elapsedDefined⟩
    ∧ execRules cEnvPass initState
        (mkRaw "b" "fail" (some ["z"]) :: [mkRaw "c" "fail" none]) =
        execRules cEnvPass ⟨stInsert initState.tbl "b" false,
          initState.elapsedDefined⟩ [mkRaw "c" "fail" none] :=
  dependency_gate_blocks_rule cEnvPass initState
    (mkRaw "b" "fail" (some ["z"]))
    ⟨"b", "mod", "Cls", Policy.fail, "", ["z"], ()⟩ "z"
    (fun _ _ _ => EvalOutcome.raises) [mkRaw "c" "fail" none]
    (by decide) (by decide) (by decide)

/-- Claim C6: a rule of policy `fail` or `skip` whose evaluation returns one
or more violations never aborts the run: its status is recorded as false and
processing continues with the next descriptor. -/
theorem fail_skip_violation_continues {P : Type} [Inhabited P]
    (env : Env P) (st : EngState) (raw : RawRule P) (cfg : BaseRuleConfig P)
    (vs : List String) (rest : List (RawRule P))
    (hval : baseRuleConfig raw = some cfg)
    (hty : cfg.type = Policy.fail ∨ cfg.type = Policy.skip)
    (hgate : cfg.depends_on.all (canRunRule st.tbl) = true)
    (hmod : env.moduleResolves cfg.module = true)
    (hcls : env.classFound cfg.module cfg.class_name = true)
    (heval : env.evalRule cfg.module cfg.class_name cfg.params =
      EvalOutcome.ok vs)
    (hvs : vs.length > 0) :
    processRule env st raw =
      StepResult.next ⟨stInsert st.tbl cfg.name false, true⟩
    ∧ execRules env st (raw :: rest) =
        execRules env ⟨stInsert st.tbl cfg.name false, true⟩ rest := by
  have hstep : processRule env st raw =
      StepResult.next ⟨stInsert st.tbl cfg.name false, true⟩ := by
    unfold processRule
    rw [hval]
    rcases hty with h | h <;> simp [hgate, hmod, hcls, heval, hvs, h]
  exact ⟨hstep, by simp only [execRules, hstep]⟩

/-- Witness for C6: a violating `fail` rule continues into the rest of the
sequence. -/
theorem fail_skip_violation_continues_witness :
    processRule cEnvViol initState (mkRaw "a" "fail" none) =
      StepResult.next ⟨stInsert initState.tbl "a" false, true⟩
    ∧ execRules cEnvViol initState
        (mkRaw "a" "fail" none :: [mkRaw "b" "fail" none]) =
        execRules cEnvViol ⟨stInsert initState.tbl "a" false, true⟩
          [mkRaw "b" "fail" none] :=
  fail_skip_violation_continues cEnvViol initState (mkRaw "a" "fail" none)
    ⟨"a", "mod", "Cls", Policy.fail, "", [], ()⟩ ["v"]
    [mkRaw "b" "fail" none]
    (by decide) (Or.inl rfl) (by decide) rfl rfl rfl (by decide)

/-- Claim C7: a rule whose evaluation returns zero violations has its status
recorded as true, and whenever every descriptor in the sequence is processed
without a `require`-policy failure or error (the loop reaches its end),
`execute_rules` returns overall success. -/
theorem zero_violations_pass_and_overall_success {P : Type} [Inhabited P]
    (env : Env P) (st : EngState) (raw : RawRule P) (cfg : BaseRuleConfig P)
    (vs : List String) (rules : List (RawRule P)) (stF : EngState)
    (hval : baseRuleConfig raw = some cfg)
    (hgate : cfg.depends_on.all (canRunRule st.tbl) = true)
    (hmod : env.moduleResolves cfg.module = true)
    (hcls : env.classFound cfg.module cfg.class_name = true)
    (heval : env.evalRule cfg.module cfg.class_name cfg.params =
      EvalOutcome.ok vs)
    (hvs : vs.length = 0)
    (hall : runSeq env initState rules = some stF) :
    processRule env st raw =
      StepResult.next ⟨stInsert st.tbl cfg.name true, true⟩
    ∧ execute_rules env rules = RunOutcome.completed true stF.tbl := by
  constructor
  · unfold processRule
    rw [hval]
    simp [hgate, hmod, hcls, heval, hvs]
  · unfold execute_rules
    have := execRules_append env hall []
    rw [List.append_nil] at this
    rw [this]
    rfl

/-- Witness for C7: a passing rule records true, and a two-rule run with no
`require` failure reports overall success. -/
theorem zero_violations_pass_and_overall_success_witness :
    processRule cEnvPass initState (mkRaw "a" "require" none) =
      StepResult.next ⟨stInsert initState.tbl "a" true, true⟩
    ∧ execute_rules cEnvPass [mkRaw "a" "require" none, mkRaw "b" "fail" none]
        = RunOutcome.completed true
            (⟨[("b", true), ("a", true)], true⟩ : EngState).tbl :=
  zero_violations_pass_and_overall_success cEnvPass initState
    (mkRaw "a" "require" none)
    ⟨"a", "mod", "Cls", Policy.require, "", [], ()⟩ []
    [mkRaw "a" "require" none, mkRaw "b" "fail" none]
    ⟨[("b", true), ("a", true)], true⟩
    (by decide) (by decide) rfl rfl rfl rfl (by decide)

/-- Claim C3 (code bug): the `except` handler's log f-strings read
`rule_time_elapsed`, which is unbound when no earlier rule in the same call
completed evaluation; so a first-evaluated rule whose evaluation raises makes
`execute_rules` itself raise `UnboundLocalError` after recording the status,
for a `require` rule (no overall-failure return) and for a `fail` rule alike
(the next descriptor is not processed), contradicting the claimed three-way
policy dispatch. -/
theorem execute_rules_error_first_rule_crashes :
    execute_rules cEnvRaises [mkRaw "a" "require" none] =
      RunOutcome.crashed PyErr.unboundLocalError [("a", false)]
    ∧ execute_rules cEnvRaises [mkRaw "a" "fail" none, mkRaw "b" "fail" none]
        = RunOutcome.crashed PyErr.unboundLocalError [("a", false)]
    ∧ execute_rules cEnvRaises [mkRaw "a" "skip" none, mkRaw "b" "fail" none]
        = RunOutcome.crashed PyErr.unboundLocalError [("a", false)] := by
  decide

/-- Claim C4 (code bug): when the module resolves but the named class is
absent, `getattr(rule_module, rule.class_name, None)` returns `None` and the
code immediately calls it, raising an uncaught `TypeError`; the run crashes
with no status recorded and the remaining descriptor is never processed,
instead of the claimed non-fatal "not found" outcome. -/
theorem execute_rules_class_absent_crashes :
    execute_rules cEnvNoClass [mkRaw "a" "fail" none, mkRaw "b" "fail" none]
      = RunOutcome.crashed PyErr.typeError [] := by
  decide

/-- Claim C5 (code bug): when a raw descriptor mapping fails validation
because it omits `name`, the handler's `rule_status[rule['name']] = False`
raises an uncaught `KeyError`; the run crashes and the following descriptor
is never processed, instead of the claimed record-and-continue.  A mapping
failing validation with `name` present is recorded false and processing
continues, as the second conjunct shows. -/
theorem execute_rules_missing_name_crashes :
    execute_rules cEnvPass [cRawNoName, mkRaw "b" "fail" none] =
      RunOutcome.crashed PyErr.keyError []
    ∧ execute_rules cEnvPass
        [⟨some "a", some "mod", some "Cls", some "bogus", none, none, none⟩,
         mkRaw "b" "fail" none] =
      RunOutcome.completed true [("b", true), ("a", false)] := by
  decide

/-- Claim C9 (code bug): documentation-generation mode crashes with the same
uncaught `TypeError` when a descriptor's named class is absent from its
resolved module (line 124 calls the `None` returned by `getattr`), instead
of silently omitting the descriptor; a module-resolution failure, by
contrast, is silently omitted as claimed. -/
theorem generate_rules_file_class_absent_crashes :
    generate_rules_file cEnvNoClass [mkRaw "a" "fail" none] =
      GenOutcome.crashed PyErr.typeError
    ∧ generate_rules_file cEnvNoModule [mkRaw "a" "fail" none] =
      GenOutcome.done [] := by
  decide

/-- Totality of the filename comparison. -/
theorem lexLe_total : ∀ as bs : List Char,
    lexLe as bs = true ∨ lexLe bs as = true := by
  intro as
  induction as with
  | nil => intro bs; left; rfl
  | cons a as ih =>
    intro bs
    cases bs with
    | nil => right; rfl
    | cons b bs =>
      by_cases h1 : a.toNat < b.toNat
      · left; simp [lexLe, h1]
      · by_cases h2 : b.toNat < a.toNat
        · right; simp [lexLe, h2]
        · rcases ih bs with h | h
          · left; simp [lexLe, h1, h2, h]
          · right; simp [lexLe, h1, h2, h]

/-- Transitivity of the filename comparison. -/
theorem lexLe_trans : ∀ as bs cs : List Char, lexLe as bs = true →
    lexLe bs cs = true → lexLe as cs = true := by
  intro as
  induction as with
  | nil => intro bs cs _ _; rfl
  | cons a as ih =>
    intro bs cs h1 h2
    cases bs with
    | nil => simp [lexLe] at h1
    | cons b bs =>
      cases cs with
      | nil => simp [lexLe] at h2
      | cons c cs =>
        simp only [lexLe] at h1 h2 ⊢
        rcases Nat.lt_trichotomy a.toNat b.toNat with hab | hab | hab
        · rcases Nat.lt_trichotomy b.toNat c.toNat with hbc | hbc | hbc
          · rw [if_pos (by omega)]
          · rw [if_pos (by omega)]
          · rw [if_neg (by omega), if_pos (by omega)] at h2
            simp at h2
        · rw [if_neg (by omega), if_neg (by omega)] at h1
          rcases Nat.lt_trichotomy b.toNat c.toNat with hbc | hbc | hbc
          · rw [if_pos (by omega)]
          · rw [if_neg (by omega), if_neg (by omega)] at h2
            rw [if_neg (by omega), if_neg (by omega)]
            exact ih bs cs h1 h2
          · rw [if_neg (by omega), if_pos (by omega)] at h2
            simp at h2
        · rw [if_neg (by omega), if_pos (by omega)] at h1
          simp at h1

/-- The loader loop computes, onto its accumulator, the concatenation of the
rule lists of the non-excluded files with the expected extension. -/
theorem loadLoop_eq {R : Type} (exclude : List String) :
    ∀ (l : List (String × List R)) (acc : List R),
    loadLoop exclude l acc =
      acc ++ ((l.filter
        (fun p => !(excludedFile exclude p.1) && p.1.endsWith ".yaml")).map
        Prod.snd).flatten := by
  intro l
  induction l with
  | nil => intro acc; simp [loadLoop]
  | cons p rest ih =>
    intro acc
    obtain ⟨fname, content⟩ := p
    cases h1 : excludedFile exclude fname with
    | true => simp [loadLoop, h1, ih]
    | false =>
      cases h2 : fname.endsWith ".yaml" with
      | true => simp [loadLoop, h1, h2, ih]
      | false => simp [loadLoop, h1, h2, ih]

/-- Claim C8: for every directory listing and exclusion set, the loader
produces exactly the concatenation, in lexicographic filename order, of the
rule lists of the directory's declaration files, omitting files whose name
starts with any excluded prefix and ignoring files that do not end in the
expected extension; the traversal order is indeed a lexicographic sorting of
the directory's files. -/
theorem load_all_rules_spec_eq {R : Type} (listing : List (String × List R))
    (exclude : List String) :
    load_all_rules listing exclude = loadAllRulesSpec listing exclude
    ∧ List.Sorted fileLe (sortFiles listing)
    ∧ List.Perm (sortFiles listing) listing := by
  refine ⟨?_, ?_, List.perm_insertionSort _ _⟩
  · unfold load_all_rules loadAllRulesSpec
    rw [loadLoop_eq]
    rfl
  · exact @List.sorted_insertionSort _ fileLe _
      ⟨fun a b => lexLe_total a.1.data b.1.data⟩
      ⟨fun a b c => lexLe_trans a.1.data b.1.data c.1.data⟩ listing

/-- Every step that continues the loop adds exactly one entry on the front
of the status table. -/
theorem processRule_next_cons {P : Type} [Inhabited P] {env : Env P}
    {st st' : EngState} {raw : RawRule P}
    (h : processRule env st raw = StepResult.next st') :
    ∃ q, st'.tbl = q :: st.tbl := by
  unfold processRule at h
  repeat' split at h
  all_goals
    first
    | (cases h
       exact ⟨_, rfl⟩)
    | cases h

/-- A run segment that processes every descriptor only prepends entries to
the status table. -/
theorem runSeq_tbl_append {P : Type} [Inhabited P] (env : Env P) :
    ∀ (rs : List (RawRule P)) (st stF : EngState),
    runSeq env st rs = some stF → ∃ pre, stF.tbl = pre ++ st.tbl := by
  intro rs
  induction rs with
  | nil =>
    intro st stF h
    simp only [runSeq, Option.some.injEq] at h
    exact ⟨[], by rw [← h]; rfl⟩
  | cons r rest ih =>
    intro st stF h
    simp only [runSeq] at h
    cases hp : processRule env st r with
    | next st2 =>
      rw [hp] at h
      obtain ⟨q, hq⟩ := processRule_next_cons hp
      obtain ⟨pre, hpre⟩ := ih st2 stF h
      exact ⟨pre ++ [q], by rw [hpre, hq]; simp⟩
    | abort t =>
      rw [hp] at h
      simp at h
    | crash e t =>
      rw [hp] at h
      simp at h

/-- Status-table lookup over an append prefers the (more recent) front part. -/
theorem stLookup_append (pre t : StatusTable) (n : String) :
    stLookup (pre ++ t) n =
      match stLookup pre n with
      | some b => some b
      | none => stLookup t n := by
  induction pre with
  | nil => rfl
  | cons q pre ih =>
    obtain ⟨m, b⟩ := q
    by_cases h : m = n
    · simp [stLookup, h]
    · simp [stLookup, h, ih]

/-- Claim C10: when descriptors share a name, each recorded outcome
overwrites the previous status-table entry for that name for lookups, and
entries are never deleted; at the end of a run segment that processes every
descriptor, the table is the earlier table with entries prepended, and its
entry for the duplicated name is the most recent later write if one exists,
else the earlier duplicate's outcome; a dependent rule processed between the
duplicates is gated on the earlier descriptor's outcome. -/
theorem duplicate_name_status_semantics {P : Type} [Inhabited P]
    (env : Env P) (st st₂ : EngState) (raw rawd : RawRule P)
    (cfg cfgd : BaseRuleConfig P) (t : StatusTable) (b₂ : Bool)
    (p : String × Bool) (rs : List (RawRule P)) (stF : EngState)
    (hval : baseRuleConfig raw = some cfg)
    (h1 : processRule env st raw = StepResult.next st₂)
    (h2 : st₂.tbl = stInsert st.tbl cfg.name false)
    (hvald : baseRuleConfig rawd = some cfgd)
    (hdeps : cfgd.depends_on = [cfg.name])
    (hmem : p ∈ st.tbl)
    (hrun : runSeq env st₂ rs = some stF) :
    stLookup st₂.tbl cfg.name = some false
    ∧ processRule env st₂ rawd =
        StepResult.next ⟨stInsert st₂.tbl cfgd.name false, st₂.elapsedDefined⟩
    ∧ stLookup (stInsert t cfg.name b₂) cfg.name = some b₂
    ∧ p ∈ st₂.tbl
    ∧ stF.tbl = stF.tbl.take (stF.tbl.length - st₂.tbl.length) ++ st₂.tbl
    ∧ stLookup stF.tbl cfg.name =
        (match stLookup (stF.tbl.take (stF.tbl.length - st₂.tbl.length))
            cfg.name with
         | some b => some b
         | none => some false) := by
  have ha : stLookup st₂.tbl cfg.name = some false := by
    rw [h2]
    simp [stInsert, stLookup]
  obtain ⟨pre, hpre⟩ := runSeq_tbl_append env rs st₂ stF hrun
  have hlen : stF.tbl.length - st₂.tbl.length = pre.length := by
    rw [hpre]
    simp
  have htake : stF.tbl.take (stF.tbl.length - st₂.tbl.length) = pre := by
    rw [hlen, hpre, List.take_left]
  refine ⟨ha, ?_, ?_, ?_, ?_, ?_⟩
  · have hcan : canRunRule st₂.tbl cfg.name = false := by
      unfold canRunRule
      rw [ha]
    have hgate : cfgd.depends_on.all (canRunRule st₂.tbl) = false := by
      rw [hdeps]
      simp [hcan]
    unfold processRule
    rw [hvald]
    simp [hgate]
  · simp [stInsert, stLookup]
  · rw [h2]
    exact List.mem_cons_of_mem _ hmem
  · rw [htake]
    exact hpre
  · rw [htake, hpre, stLookup_append]
    cases h : stLookup pre cfg.name with
    | none => simp [h, ha]
    | some b => simp [h]

/-- Witness for C10: rule `dup` (blocked, recorded false), a dependent rule
`mid` gated on it, then a second `dup` overwriting the entry with true over
the table `[("x", true)]`. -/
theorem duplicate_name_status_semantics_witness :
    stLookup (⟨[("dup", false), ("x", true)], false⟩ : EngState).tbl "dup" =
      some false
    ∧ processRule cEnvPass ⟨[("dup", false), ("x", true)], false⟩
        (mkRaw "mid" "fail" (some ["dup"])) =
      StepResult.next
        ⟨stInsert (⟨[("dup", false), ("x", true)], false⟩ : EngState).tbl
          "mid" false, false⟩
    ∧ stLookup (stInsert [("dup", false), ("x", true)] "dup" true) "dup" =
        some true
    ∧ ("x", true) ∈ (⟨[("dup", false), ("x", true)], false⟩ : EngState).tbl
    ∧ (⟨[("dup", true), ("mid", false), ("dup", false), ("x", true)], true⟩
          : EngState).tbl =
        (⟨[("dup", true), ("mid", false), ("dup", false), ("x", true)], true⟩
          : EngState).tbl.take
          ((⟨[("dup", true), ("mid", false), ("dup", false), ("x", true)],
              true⟩ : EngState).tbl.length -
            (⟨[("dup", false), ("x", true)], false⟩ : EngState).tbl.length) ++
        (⟨[("dup", false), ("x", true)], false⟩ : EngState).tbl
    ∧ stLookup (⟨[("dup", true), ("mid", false), ("dup", false), ("x", true)],
          true⟩ : EngState).tbl "dup" =
        (match stLookup ((⟨[("dup", true), ("mid", false), ("dup", false),
              ("x", true)], true⟩ : EngState).tbl.take
            ((⟨[("dup", true), ("mid", false), ("dup", false), ("x", true)],
                true⟩ : EngState).tbl.length -
              (⟨[("dup", false), ("x", true)], false⟩ : EngState).tbl.length))
            "dup" with
         | some b => some b
         | none => some false) :=
  duplicate_name_status_semantics cEnvPass
    ⟨[("x", true)], false⟩ ⟨[("dup", false), ("x", true)], false⟩
    (mkRaw "dup" "fail" (some ["absent"])) (mkRaw "mid" "fail" (some ["dup"]))
    ⟨"dup", "mod", "Cls", Policy.fail, "", ["absent"], ()⟩
    ⟨"mid", "mod", "Cls", Policy.fail, "", ["dup"], ()⟩
    [("dup", false), ("x", true)] true ("x", true)
    [mkRaw "mid" "fail" (some ["dup"]), mkRaw "dup" "fail" none]
    ⟨[("dup", true), ("mid", false), ("dup", false), ("x", true)], true⟩
    (by decide) (by decide) (by decide) (by decide) (by decide) (by decide)
    (by decide)

end MapsWorkflow
